import Mathlib

/-!
# Verification of `combine_mrc_stacks.py`

A shallow embedding of the star-file → MRC-stack pipeline in
`combine_mrc_stacks.py`: the reference codec (`parse_image_reference`),
the table reader (`read_star_file`) and the image gatherer
(`process_images`), together with theorems checking the specification's
claims about them.  The table writer (`save_star_file`) is *not* given a
behavioural embedding: source line 128 is dedented to column 0, which
makes the module invalid Python (see the indentation model below), so
the writer has no behaviour to embed — claims about it are settled
against that fact.

Modelling conventions:
* A text file is a list of lines; each line is a `List Char` without its
  trailing newline (files are taken newline-terminated, as `readlines` /
  `writelines` round-trip them).
* Python `str.strip()` / `str.split()` are modelled over the six ASCII
  whitespace characters.
* The pandas `DataFrame` is modelled as an ordered column list plus rows
  of cells (`mkDataFrame` reproduces the list-of-lists constructor:
  a ragged row set is padded to the maximum row width with a null cell,
  and construction fails when that width differs from the number of
  column labels).  Tables carry the default range index, as every table
  built by `read_star_file` does, so label access `df.at[i, c]` is
  positional.
* The MRC container is an opaque capability (per the spec's external
  interface): a map from paths to either a single 2-D image or a rank-3
  stack of images.  Pixel payloads are carried verbatim; the
  `astype(np.float32)` cast is recorded as the dtype tag of the written
  stack (floating-point value rounding is outside the embedding).
* Python exceptions are mapped to an error enumeration:
  `ValueError ↦ formatErr`, `FileNotFoundError ↦ notFoundErr`,
  `IndexError ↦ rangeErr`, `TypeError ↦ typeErr`, `KeyError ↦ keyErr`.
-/

namespace MrcsMaker

/-- A line of text (without its trailing newline). -/
abbrev Line := List Char

/-- Character list of a string literal. -/
def L (s : String) : List Char := s.data

/-- Error taxonomy of the pipeline (Python exception classes). -/
inductive Err where
  | formatErr   -- ValueError ("FormatError" in the spec)
  | notFoundErr -- FileNotFoundError ("NotFoundError")
  | rangeErr    -- IndexError ("RangeError")
  | typeErr     -- TypeError (e.g. re.match on a non-string cell)
  | keyErr      -- KeyError (column access on a missing label)
deriving DecidableEq, Repr

/-! ## Python string primitives -/

/-- The ASCII whitespace characters recognised by `str.strip()` and
`str.split()`. -/
def isWs (c : Char) : Bool :=
  c == ' ' || c == '\t' || c == '\n' || c == '\r' || c == '\x0b' || c == '\x0c'

/-- Remove a trailing run of whitespace. -/
def stripRight : List Char → List Char
  | [] => []
  | c :: cs =>
    match stripRight cs with
    | [] => if isWs c then [] else [c]
    | r => c :: r

/-- Python `str.strip()`: drop leading and trailing whitespace. -/
def pyStrip (l : List Char) : List Char := stripRight (l.dropWhile isWs)

/-- Worker for `pySplit`, accumulating the current token reversed. -/
def splitWsAux : List Char → List Char → List (List Char)
  | [], acc => if acc = [] then [] else [acc.reverse]
  | c :: cs, acc =>
    if isWs c then
      if acc = [] then splitWsAux cs [] else acc.reverse :: splitWsAux cs []
    else splitWsAux cs (c :: acc)

/-- Python `str.split()` (no argument): split on whitespace runs, never
producing empty tokens. -/
def pySplit (l : List Char) : List (List Char) := splitWsAux l []

/-! ## Reference codec (`parse_image_reference`, lines 9–17) -/

/-- Numeric value of a decimal digit character. -/
def digitVal (c : Char) : Nat := c.toNat - 48

/-- Python `int` of a (nonempty) decimal digit string. -/
def digitsVal (l : List Char) : Nat := l.foldl (fun a c => 10 * a + digitVal c) 0

/-- `parse_image_reference` (source lines 9–17): the semantics of
`re.match(r'(\d+)@(.+)', s)` — a maximal nonempty run of leading digits,
an `@`, then a nonempty greedy run of non-newline characters (`.` does
not match `\n`, and `re.match` does not anchor at the end). -/
def parse_image_reference (s : List Char) : Except Err (Nat × List Char) :=
  let ds := s.takeWhile Char.isDigit
  match s.dropWhile Char.isDigit with
  | '@' :: rest =>
    if ds = [] then .error .formatErr
    else
      let name := rest.takeWhile (fun c => c ≠ '\n')
      if name = [] then .error .formatErr
      else .ok (digitsVal ds, name)
  | _ => .error .formatErr

/-- Decimal digit character for `d < 10` (clamped above). -/
def digitChar : Nat → Char
  | 0 => '0' | 1 => '1' | 2 => '2' | 3 => '3' | 4 => '4'
  | 5 => '5' | 6 => '6' | 7 => '7' | 8 => '8' | _ => '9'

/-- Fuelled worker for `natChars` (structural recursion on the fuel, so
that concrete instances reduce in the kernel). -/
def natCharsGo : Nat → Nat → List Char
  | _, 0 => []
  | n, fuel + 1 =>
    if n = 0 then [] else natCharsGo (n / 10) fuel ++ [digitChar (n % 10)]

/-- Decimal representation of a natural number (empty for `0`; only used
zero-padded). -/
def natChars (n : Nat) : List Char := natCharsGo n n

/-- Python `f"{i:06d}"`: zero-pad to a *minimum* width of 6. -/
def zfill6 (i : Nat) : List Char :=
  List.replicate (6 - (natChars i).length) '0' ++ natChars i

/-- The encoded reference written by `process_images` (line 107):
`f"{i:06d}@{filename}"`. -/
def encodeRef (i : Nat) (filename : List Char) : List Char :=
  zfill6 i ++ '@' :: filename

/-! ## Data model: tables, images, the file system capability -/

/-- A table cell: a raw string value, or the null cell pandas uses to pad
a ragged row (rendered `"None"` by `str`). -/
inductive Val where
  | str (s : List Char)
  | none_
deriving DecidableEq

/-- The in-memory metadata table: ordered column names plus rows of cells
(the pandas `DataFrame` with its default range index). -/
structure Table where
  cols : List (List Char)
  rows : List (List Val)
deriving DecidableEq

/-- Index of the first occurrence of a column label. -/
def firstIdx (cols : List (List Char)) (c : List Char) : Option Nat :=
  cols.findIdx? (fun x => x = c)

/-- Cell of row `k` (0-based), column position `j`. -/
def cellAt (t : Table) (k j : Nat) : Option Val :=
  t.rows[k]?.bind (fun r => r[j]?)

/-- A 2-D image plane; `h × w` is its shape, `px` its pixel payload
(carried verbatim — numeric dtype conversion is tracked separately). -/
structure Image where
  h : Nat
  w : Nat
  px : List Int
deriving DecidableEq

/-- Contents of an MRC container: a single 2-D image (rank-2 data) or a
stack (rank-3 data). -/
inductive MrcData where
  | single (img : Image)
  | stack (imgs : List Image)
deriving DecidableEq

inductive Dtype where
  | float32
  | other
deriving DecidableEq

/-- The stack written by the gatherer. -/
structure MrcStack where
  planes : List Image
  dtype : Dtype
deriving DecidableEq

/-- The file-system capability: maps a path to the MRC container stored
there, if any (`os.path.exists` + `mrcfile.open`). -/
def FS := (List Char) → Option MrcData

/-- `os.path.join` for POSIX paths as used on `input_dir`/`filename`. -/
def joinPath (dir f : List Char) : List Char :=
  if f.head? = some '/' then f
  else if dir = [] then f
  else if dir.getLast? = some '/' then dir ++ f
  else dir ++ '/' :: f

/-- `os.path.basename` for POSIX paths: the part after the last `/`. -/
def basename (p : List Char) : List Char :=
  (p.reverse.takeWhile (fun c => !(c == '/'))).reverse

/-! ## Table reader (`read_star_file`, lines 20–61) -/

/-- State of the line scan in `read_star_file` (lines 30–43):
`data_start`, `header_start`, the collected column names, and whether the
`break` at line 43 has fired. -/
structure ScanSt where
  ds : Option Nat
  hs : Option Nat
  cols : List (List Char)
  broke : Bool
deriving DecidableEq

/-- `line.strip().split()[0][1:]` (line 40): first whitespace token of
the header line, with the leading `_` sigil removed. -/
def colNameOf (l : Line) : List Char := ((pySplit (pyStrip l)).headD []).drop 1

/-- One iteration of the `for i, line in enumerate(lines)` scan
(lines 34–43), the four `elif` branches in source order. -/
def scanStep (i : Nat) (line : Line) (st : ScanSt) : ScanSt :=
  let t := pyStrip line
  if t = L "data_particles" ∨ t = L "data_" then { st with ds := some i }
  else if t = L "loop_" ∧ st.ds ≠ none then { st with hs := some (i + 1) }
  else if st.hs ≠ none ∧ t ≠ [] ∧ t.head? = some '_' then
    { st with cols := st.cols ++ [colNameOf line] }
  else if st.hs ≠ none ∧ st.cols ≠ [] ∧ (t = [] ∨ t.head? ≠ some '_') then
    { st with ds := some i, broke := true }
  else st

/-- The scan loop with its early `break`. -/
def scanLines : List Line → Nat → ScanSt → ScanSt
  | [], _, st => st
  | l :: ls, i, st =>
    if st.broke then st else scanLines ls (i + 1) (scanStep i l st)

/-- Data-region filter (line 51): keep non-blank lines not starting with
`#`. -/
def keepRow (l : Line) : Bool :=
  match pyStrip l with
  | [] => false
  | c :: _ => !(c == '#')

/-- `pd.DataFrame(data_rows, columns=column_names)` on a list of token
lists: pandas widens the data to the maximum row length, padding shorter
rows with a null cell, and fails when that width differs from the number
of column labels. -/
def mkDataFrame (dataRows : List (List (List Char))) (cols : List (List Char)) :
    Except Err Table :=
  match dataRows with
  | [] => .ok ⟨cols, []⟩
  | _ :: _ =>
    let w := (dataRows.map List.length).foldl max 0
    if w = cols.length then
      .ok ⟨cols, dataRows.map
        (fun r => r.map Val.str ++ List.replicate (w - r.length) Val.none_)⟩
    else .error .formatErr

/-- `read_star_file` (lines 20–61) on the file's lines. -/
def read_star_file (lines : List Line) (imageColumnName : List Char) :
    Except Err Table :=
  let st := scanLines lines 0 ⟨none, none, [], false⟩
  match st.hs, st.ds with
  | some _, some d =>
    let dataRows := ((lines.drop d).filter keepRow).map (fun l => pySplit (pyStrip l))
    match mkDataFrame dataRows st.cols with
    | .error e => .error e
    | .ok df => if imageColumnName ∈ df.cols then .ok df else .error .formatErr
  | _, _ => .error .formatErr

/-! ## Image gatherer (`process_images`, lines 64–109) -/

/-- Sequential `Except`-valued map: the first failing element aborts, as
a Python `for` loop of fallible statements does. -/
def exMapM (f : α → Except Err β) : List α → Except Err (List β)
  | [] => .ok []
  | x :: xs =>
    match f x with
    | .error e => .error e
    | .ok y =>
      match exMapM f xs with
      | .error e => .error e
      | .ok ys => .ok (y :: ys)

/-- `parse_image_reference(ref)` on a cell (`re.match` on a non-string —
the null cell — raises `TypeError`). -/
def parseRefVal : Val → Except Err (Nat × List Char)
  | .str s => parse_image_reference s
  | .none_ => .error .typeErr

/-- Lines 71–74: decode the reference column of every row, in row
order. -/
def parsePhase (t : Table) (col : List Char) : Except Err (List (Nat × List Char)) :=
  match firstIdx t.cols col with
  | none => .error .keyErr
  | some j => exMapM parseRefVal (t.rows.map (fun r => r[j]?.getD Val.none_))

/-- Stable insertion by first component, modelling Python's stable
`sorted(..., key=lambda x: x[0])` (line 77). -/
def insertByKey (x : Nat × α) : List (Nat × α) → List (Nat × α)
  | [] => [x]
  | y :: ys => if x.1 ≤ y.1 then x :: y :: ys else y :: insertByKey x ys

/-- Stable sort by first component (line 77's `sorted`). -/
def sortByKey : List (Nat × α) → List (Nat × α)
  | [] => []
  | x :: xs => insertByKey x (sortByKey xs)

/-- Lines 81–95: resolve one decoded reference against the input
directory and extract its 2-D plane. -/
def resolveImage (fs : FS) (inputDir : List Char) (r : Nat × List Char) :
    Except Err Image :=
  match fs (joinPath inputDir r.2) with
  | none => .error .notFoundErr
  | some (.stack imgs) =>
    if h : r.1 < imgs.length then .ok imgs[r.1]
    else .error .rangeErr
  | some (.single img) =>
    if r.1 = 0 then .ok img else .error .rangeErr

/-- `np.stack(images, axis=0)` (line 98): fails on an empty list or on
shape-mismatched planes, otherwise concatenates along a new leading
axis. -/
def npStack (imgs : List Image) : Except Err (List Image) :=
  match imgs with
  | [] => .error .formatErr
  | i0 :: rest =>
    if rest.all (fun i => i.h == i0.h && i.w == i0.w) then .ok (i0 :: rest)
    else .error .formatErr

/-- Lines 105–107: rewrite the reference column of row `i` to
`f"{i:06d}@{output_filename}"`, positionally (default range index). -/
def rewriteRefs (t : Table) (col : List Char) (outName : List Char) : Table :=
  match firstIdx t.cols col with
  | none => t
  | some j =>
    ⟨t.cols, (t.rows.enum).map (fun p => p.2.set j (.str (encodeRef p.1 outName)))⟩

/-- `process_images` (lines 64–109), threading the table state so that
the in-place mutation timing of the source is observable: the pair holds
the table as left behind (mutated only on the success path, lines
106–107) and the outcome (the written stack, or the exception). -/
def process_images (t : Table) (imageColumn inputDir outputStackPath : List Char)
    (fs : FS) : Table × Except Err MrcStack :=
  match parsePhase t imageColumn with
  | .error e => (t, .error e)
  | .ok imageRefs =>
    match exMapM (fun p => resolveImage fs inputDir p.2) (sortByKey imageRefs.enum) with
    | .error e => (t, .error e)
    | .ok images =>
      match npStack images with
      | .error e => (t, .error e)
      | .ok planes =>
        (rewriteRefs t imageColumn (basename outputStackPath),
         .ok ⟨planes, .float32⟩)

/-! ## The table writer's code is unreachable (line 128)

Source line 128 of `combine_mrc_stacks.py` — the defensive check
`if data_start is None:` inside `save_star_file` — sits at column 0,
with its `raise` at 8 spaces (line 129) and the next statement of the
function back at 4 spaces (line 132).  Python's tokenizer rejects this
module before anything executes (`IndentationError: unindent does not
match any outer indentation level`, line 132), so `save_star_file` — and
with it the whole pipeline, including the repository's own test module,
which imports this file — never runs and never writes an output file.
The following definitions model the tokenizer's indentation algorithm
(Python language reference §2.1.8) and the module's actual per-line
indentation, so that this rejection is itself a checked fact. -/

/-- Dedent phase of the tokenizer: pop levels until one equals the new
indentation; if none does, the line is rejected. -/
def pyDedent : List Nat → Nat → Option (List Nat)
  | [], _ => none
  | top :: rest, i =>
    if i = top then some (top :: rest)
    else if i < top then pyDedent rest i
    else none

/-- One logical line against the indentation stack: a deeper line pushes
its level, otherwise the dedent rule applies (an equal line pops
nothing). -/
def pyIndentStep (stack : List Nat) (i : Nat) : Option (List Nat) :=
  match stack with
  | [] => none
  | top :: rest => if top < i then some (i :: top :: rest) else pyDedent (top :: rest) i

/-- Whether a sequence of logical-line indentations is accepted by the
tokenizer, starting from the given stack (`[0]` at the top of a
module). -/
def pyIndentsOk : List Nat → List Nat → Bool
  | _, [] => true
  | stack, i :: is =>
    match pyIndentStep stack i with
    | none => false
    | some st => pyIndentsOk st is

/-- The leading-space count of every logical line of
`combine_mrc_stacks.py`, in order (blank lines, comment-only lines and
docstring continuation lines carry no indentation token; the file
contains no tabs).  Position 78 (value `0`) is source line 128, the
dedented `if data_start is None:`; position 79 (value `8`) is its
`raise` on line 129; position 80 (value `4`) is line 132
(`column_headers = []`), the line the tokenizer rejects. -/
def moduleIndents : List Nat :=
  [0, 0, 0, 0, 0, 0,                                     -- lines 1–6: imports
   0, 4, 4, 8, 4, 8,                                     -- lines 9–17: parse_image_reference
   0, 4, 4, 8, 4, 4, 4, 4, 8, 12, 8, 12, 8, 12, 8, 12, 12,
   4, 8, 4, 4, 8, 12, 4, 4, 8, 4,                        -- lines 20–61: read_star_file
   0, 4, 4, 4, 8, 8, 4, 4, 4, 8, 8, 12, 8, 12, 16, 20, 16,
   12, 16, 20, 16, 4, 4, 8, 4, 4, 8, 4,                  -- lines 64–109: process_images
   0, 4, 4, 8, 4, 4, 4, 8, 12, 12, 12,                   -- lines 112–126: save_star_file
   0, 8,                                                 -- lines 128–129: the dedented check
   4, 4, 4, 8, 8, 4, 8, 8, 12, 8, 12,                    -- lines 132–149: rest of save_star_file
   0, 4, 4, 4, 4, 4, 4, 4, 4, 4, 4, 4, 4, 4, 4,          -- lines 152–174: main
   0, 4]                                                 -- lines 177–178: entry point

/-! ### Codec lemmas -/

theorem digitVal_digitChar {d : Nat} (h : d < 10) : digitVal (digitChar d) = d := by
  interval_cases d <;> decide

theorem isDigit_digitChar (d : Nat) : (digitChar d).isDigit = true := by
  unfold digitChar
  split <;> decide

theorem digitsVal_append_one (l : List Char) (c : Char) :
    digitsVal (l ++ [c]) = 10 * digitsVal l + digitVal c := by
  unfold digitsVal
  rw [List.foldl_append]
  simp

theorem digitsVal_natCharsGo (fuel n : Nat) (h : n ≤ fuel) :
    digitsVal (natCharsGo n fuel) = n := by
  induction fuel generalizing n with
  | zero =>
    have : n = 0 := Nat.le_zero.1 h
    simp [natCharsGo, this, digitsVal]
  | succ fuel ih =>
    by_cases hn : n = 0
    · simp [natCharsGo, hn, digitsVal]
    · have hdiv : n / 10 ≤ fuel := by
        have : n / 10 < n := Nat.div_lt_self (Nat.pos_of_ne_zero hn) (by norm_num)
        omega
      rw [natCharsGo, if_neg hn, digitsVal_append_one, ih _ hdiv,
        digitVal_digitChar (Nat.mod_lt _ (by norm_num))]
      omega

theorem digitsVal_natChars (n : Nat) : digitsVal (natChars n) = n :=
  digitsVal_natCharsGo n n (Nat.le_refl n)

theorem digitsVal_replicate_zero (k : Nat) (l : List Char) :
    digitsVal (List.replicate k '0' ++ l) = digitsVal l := by
  induction k with
  | zero => simp
  | succ k ih =>
    unfold digitsVal at ih ⊢
    simp only [List.replicate_succ, List.cons_append, List.foldl_cons]
    have : 10 * 0 + digitVal '0' = 0 := by decide
    rw [this]
    exact ih

theorem digitsVal_zfill6 (i : Nat) : digitsVal (zfill6 i) = i := by
  unfold zfill6
  rw [digitsVal_replicate_zero, digitsVal_natChars]

theorem isDigit_of_mem_natCharsGo {c : Char} {n fuel : Nat}
    (h : c ∈ natCharsGo n fuel) : c.isDigit = true := by
  induction fuel generalizing n with
  | zero => simp [natCharsGo] at h
  | succ fuel ih =>
    by_cases hn : n = 0
    · simp [natCharsGo, hn] at h
    · rw [natCharsGo, if_neg hn] at h
      rcases List.mem_append.1 h with h | h
      · exact ih h
      · rw [List.mem_singleton.1 h]
        exact isDigit_digitChar _

theorem isDigit_of_mem_natChars {c : Char} {n : Nat} (h : c ∈ natChars n) :
    c.isDigit = true :=
  isDigit_of_mem_natCharsGo h

theorem isDigit_of_mem_zfill6 {c : Char} {i : Nat} (h : c ∈ zfill6 i) :
    c.isDigit = true := by
  unfold zfill6 at h
  rcases List.mem_append.1 h with h | h
  · rw [List.eq_of_mem_replicate h]; decide
  · exact isDigit_of_mem_natChars h

theorem takeWhile_all_append {p : α → Bool} {l : List α} (x : α) (r : List α)
    (hl : ∀ a ∈ l, p a = true) (hx : p x = false) :
    (l ++ x :: r).takeWhile p = l := by
  induction l with
  | nil => simp [List.takeWhile, hx]
  | cons a l ih =>
    have ha : p a = true := hl a (List.mem_cons_self a l)
    simp only [List.cons_append, List.takeWhile_cons, ha, if_true]
    rw [ih (fun b hb => hl b (List.mem_cons_of_mem a hb))]

theorem dropWhile_all_append {p : α → Bool} {l : List α} (x : α) (r : List α)
    (hl : ∀ a ∈ l, p a = true) (hx : p x = false) :
    (l ++ x :: r).dropWhile p = x :: r := by
  induction l with
  | nil => simp [List.dropWhile, hx]
  | cons a l ih =>
    have ha : p a = true := hl a (List.mem_cons_self a l)
    simp only [List.cons_append, List.dropWhile_cons, ha, if_true]
    exact ih (fun b hb => hl b (List.mem_cons_of_mem a hb))

/-- Decoding an encoded reference with a nonempty, newline-free filename. -/
theorem parse_encodeRef (i : Nat) (name : List Char) (h1 : name ≠ [])
    (h2 : '\n' ∉ name) :
    parse_image_reference (encodeRef i name) = .ok (i, name) := by
  have hds : ∀ c ∈ zfill6 i, c.isDigit = true := fun c hc => isDigit_of_mem_zfill6 hc
  have hat : ('@').isDigit = false := by decide
  unfold parse_image_reference encodeRef
  rw [takeWhile_all_append '@' name hds hat, dropWhile_all_append '@' name hds hat]
  have hne : zfill6 i ≠ [] := by
    unfold zfill6
    intro hcontra
    rcases List.append_eq_nil.1 hcontra with ⟨hrep, hnat⟩
    have : (6 - (natChars i).length) = 0 := by
      simpa using congrArg List.length hrep
    rw [hnat] at this
    simp at this
  have hname : name.takeWhile (fun c => c ≠ '\n') = name := by
    apply List.takeWhile_eq_self_iff.2
    intro c hc
    simp only [ne_eq, decide_eq_true_eq]
    intro hcc
    exact h2 (hcc ▸ hc)
  simp only [hne, if_false, hname, h1, digitsVal_zfill6]

/-! ### Lemmas about `pyStrip` and `pySplit` -/

theorem stripRight_cons_eq_nil {a : Char} {as : List Char}
    (hs : stripRight as = []) :
    stripRight (a :: as) = if isWs a then [] else [a] := by
  simp [stripRight, hs]

theorem stripRight_cons_eq_cons {a x : Char} {as xs : List Char}
    (hs : stripRight as = x :: xs) :
    stripRight (a :: as) = a :: x :: xs := by
  simp [stripRight, hs]

theorem stripRight_trailing (l : List Char) :
    ∃ w, (∀ c ∈ w, isWs c = true) ∧ l = stripRight l ++ w := by
  induction l with
  | nil => exact ⟨[], by simp, rfl⟩
  | cons a as ih =>
    obtain ⟨w, hw, hsplit⟩ := ih
    cases hs : stripRight as with
    | nil =>
      rw [hs] at hsplit
      rw [stripRight_cons_eq_nil hs]
      by_cases hws : isWs a
      · refine ⟨a :: as, ?_, by rw [if_pos hws]; rfl⟩
        intro c hc
        rcases List.mem_cons.1 hc with rfl | hc
        · exact hws
        · rw [List.nil_append] at hsplit
          rw [hsplit] at hc
          exact hw c hc
      · refine ⟨as, ?_, by rw [if_neg hws]; rfl⟩
        intro c hc
        rw [List.nil_append] at hsplit
        rw [hsplit] at hc
        exact hw c hc
    | cons x xs =>
      rw [hs] at hsplit
      rw [stripRight_cons_eq_cons hs]
      exact ⟨w, hw, by rw [List.cons_append, ← hsplit]⟩

/-- An all-whitespace input yields no tokens. -/
theorem splitWsAux_all_ws {w : List Char} (h : ∀ c ∈ w, isWs c = true) :
    splitWsAux w [] = [] := by
  induction w with
  | nil => rfl
  | cons c cs ih =>
    rw [splitWsAux, if_pos (h c (List.mem_cons_self c cs))]
    simp only [if_pos rfl]
    exact ih (fun x hx => h x (List.mem_cons_of_mem c hx))

theorem splitWsAux_all_ws_acc {w : List Char} (h : ∀ c ∈ w, isWs c = true)
    {acc : List Char} (hacc : acc ≠ []) : splitWsAux w acc = [acc.reverse] := by
  cases w with
  | nil => simp [splitWsAux, hacc]
  | cons c cs =>
    rw [splitWsAux, if_pos (h c (List.mem_cons_self c cs))]
    rw [if_neg hacc, splitWsAux_all_ws (fun x hx => h x (List.mem_cons_of_mem c hx))]

/-- Trailing whitespace does not change the token list. -/
theorem splitWsAux_append_ws {w : List Char} (hw : ∀ c ∈ w, isWs c = true) :
    ∀ (l acc : List Char), splitWsAux (l ++ w) acc = splitWsAux l acc := by
  intro l
  induction l with
  | nil =>
    intro acc
    by_cases hacc : acc = []
    · subst hacc
      rw [List.nil_append, splitWsAux_all_ws hw]
      rfl
    · rw [List.nil_append, splitWsAux_all_ws_acc hw hacc]
      simp [splitWsAux, hacc]
  | cons c cs ih =>
    intro acc
    rw [List.cons_append, splitWsAux, splitWsAux]
    by_cases hc : isWs c
    · rw [if_pos hc, if_pos hc]
      by_cases hacc : acc = []
      · rw [if_pos hacc, if_pos hacc, ih]
      · rw [if_neg hacc, if_neg hacc, ih]
    · rw [if_neg hc, if_neg hc, ih]

/-- Leading whitespace does not change the token list. -/
theorem pySplit_dropWhile (l : List Char) :
    pySplit (l.dropWhile isWs) = pySplit l := by
  induction l with
  | nil => rfl
  | cons c cs ih =>
    rw [List.dropWhile_cons]
    by_cases hc : isWs c
    · rw [if_pos hc, ih]
      unfold pySplit
      rw [splitWsAux, if_pos hc]
      simp
    · rw [if_neg hc]

/-- `line.strip().split() == line.split()`. -/
theorem pySplit_pyStrip (l : List Char) : pySplit (pyStrip l) = pySplit l := by
  unfold pyStrip
  obtain ⟨w, hw, hsplit⟩ := stripRight_trailing (l.dropWhile isWs)
  calc pySplit (stripRight (l.dropWhile isWs))
      = pySplit (stripRight (l.dropWhile isWs) ++ w) := by
        unfold pySplit
        rw [splitWsAux_append_ws hw]
    _ = pySplit (l.dropWhile isWs) := by rw [← hsplit]
    _ = pySplit l := pySplit_dropWhile l

/-! ### Lemmas about the reader's line scan -/

theorem scanLines_broke {ls : List Line} {i : Nat} {st : ScanSt}
    (h : st.broke = true) : scanLines ls i st = st := by
  cases ls with
  | nil => rfl
  | cons l ls => rw [scanLines, if_pos h]

theorem scanLines_cons_live {l : Line} {ls : List Line} {i : Nat} {st : ScanSt}
    (h : st.broke = false) :
    scanLines (l :: ls) i st = scanLines ls (i + 1) (scanStep i l st) := by
  rw [scanLines, if_neg (by simp [h])]

theorem scanLines_append (xs ys : List Line) (i : Nat) (st : ScanSt) :
    scanLines (xs ++ ys) i st = scanLines ys (i + xs.length) (scanLines xs i st) := by
  induction xs generalizing i st with
  | nil => simp [scanLines]
  | cons x xs ih =>
    by_cases h : st.broke = true
    · rw [scanLines_broke h, scanLines_broke h, scanLines_broke h]
    · have h' : st.broke = false := by simpa using h
      rw [List.cons_append, scanLines_cons_live h', scanLines_cons_live h', ih]
      congr 1
      simp [List.length_cons]
      omega

/-- Before any `loop_` line has been seen, the scan only tracks the last
data-block marker. -/
theorem scanLines_seekLoop : ∀ (pre : List Line) (i : Nat) (st : ScanSt),
    st.hs = none → st.cols = [] → st.broke = false →
    (∀ l ∈ pre, pyStrip l ≠ L "loop_") →
    ∃ d, scanLines pre i st = ⟨d, none, [], false⟩ := by
  intro pre
  induction pre with
  | nil =>
    intro i st hhs hcols hbroke _
    exact ⟨st.ds, by cases st; simp_all [scanLines]⟩
  | cons l ls ih =>
    intro i st hhs hcols hbroke hpre
    rw [scanLines_cons_live hbroke]
    have hstep : ∃ d', scanStep i l st = ⟨d', none, [], false⟩ := by
      simp only [scanStep]
      by_cases h1 : pyStrip l = L "data_particles" ∨ pyStrip l = L "data_"
      · exact ⟨some i, by rw [if_pos h1]; cases st; simp_all⟩
      · rw [if_neg h1]
        have h2 : ¬(pyStrip l = L "loop_" ∧ st.ds ≠ none) := by
          intro hcon
          exact hpre l (List.mem_cons_self l ls) hcon.1
        rw [if_neg h2]
        have h3 : ¬(st.hs ≠ none ∧ pyStrip l ≠ [] ∧ (pyStrip l).head? = some '_') := by
          intro hcon
          exact hcon.1 hhs
        rw [if_neg h3]
        have h4 : ¬(st.hs ≠ none ∧ st.cols ≠ [] ∧
            (pyStrip l = [] ∨ (pyStrip l).head? ≠ some '_')) := by
          intro hcon
          exact hcon.1 hhs
        rw [if_neg h4]
        exact ⟨st.ds, by cases st; simp_all⟩
    obtain ⟨d', hd'⟩ := hstep
    rw [hd']
    exact ih (i + 1) _ rfl rfl rfl (fun x hx => hpre x (List.mem_cons_of_mem l hx))

/-- Inside the header region, each sigil line appends one column name. -/
theorem scanLines_headers : ∀ (H : List Line) (i : Nat) (st : ScanSt) (m : Nat),
    st.hs = some m → st.broke = false →
    (∀ l ∈ H, pyStrip l ≠ [] ∧ (pyStrip l).head? = some '_') →
    scanLines H i st = { st with cols := st.cols ++ H.map colNameOf } := by
  intro H
  induction H with
  | nil =>
    intro i st m _ _ _
    cases st
    simp [scanLines]
  | cons l ls ih =>
    intro i st m hhs hbroke hH
    have hl := hH l (List.mem_cons_self l ls)
    have hhead : (pyStrip l).head? = some '_' := hl.2
    have hmark1 : ¬(pyStrip l = L "data_particles" ∨ pyStrip l = L "data_") := by
      rintro (h | h) <;> rw [h] at hhead <;> exact absurd hhead (by decide)
    have hmark2 : ¬(pyStrip l = L "loop_" ∧ st.ds ≠ none) := by
      rintro ⟨h, _⟩
      rw [h] at hhead
      exact absurd hhead (by decide)
    have hbr3 : st.hs ≠ none ∧ pyStrip l ≠ [] ∧ (pyStrip l).head? = some '_' :=
      ⟨by simp [hhs], hl.1, hl.2⟩
    rw [scanLines_cons_live hbroke]
    have hstep : scanStep i l st = { st with cols := st.cols ++ [colNameOf l] } := by
      simp only [scanStep]
      rw [if_neg hmark1, if_neg hmark2, if_pos hbr3]
    rw [hstep,
      ih (i + 1) _ m (by simpa using hhs) (by simpa using hbroke)
        (fun x hx => hH x (List.mem_cons_of_mem l hx))]
    cases st
    simp

/-- The first non-header line after a nonempty header block fires the
`break` branch. -/
theorem scanStep_break (i : Nat) (r0 : Line) (st : ScanSt) (m : Nat)
    (hhs : st.hs = some m) (hcols : st.cols ≠ [])
    (hm : pyStrip r0 ≠ L "data_particles" ∧ pyStrip r0 ≠ L "data_" ∧
      pyStrip r0 ≠ L "loop_")
    (hr0 : pyStrip r0 = [] ∨ (pyStrip r0).head? ≠ some '_') :
    scanStep i r0 st = { st with ds := some i, broke := true } := by
  have h1 : ¬(pyStrip r0 = L "data_particles" ∨ pyStrip r0 = L "data_") := by
    rintro (h | h)
    · exact hm.1 h
    · exact hm.2.1 h
  have h2 : ¬(pyStrip r0 = L "loop_" ∧ st.ds ≠ none) := fun hc => hm.2.2 hc.1
  have h3 : ¬(st.hs ≠ none ∧ pyStrip r0 ≠ [] ∧ (pyStrip r0).head? = some '_') := by
    rintro ⟨_, hne, hh⟩
    rcases hr0 with h | h
    · exact hne h
    · exact h hh
  have h4 : st.hs ≠ none ∧ st.cols ≠ [] ∧
      (pyStrip r0 = [] ∨ (pyStrip r0).head? ≠ some '_') := ⟨by simp [hhs], hcols, hr0⟩
  simp only [scanStep]
  rw [if_neg h1, if_neg h2, if_neg h3, if_pos h4]

/-- The scan on a well-formed file: data marker `b`, loop marker `lp`,
nonempty header block `H`, then rows starting with `r0`. -/
theorem scan_structured (pre : List Line) (b lp : Line) (H : List Line)
    (r0 : Line) (R' : List Line)
    (hpre : ∀ l ∈ pre, pyStrip l ≠ L "loop_")
    (hb : pyStrip b = L "data_particles" ∨ pyStrip b = L "data_")
    (hlp : pyStrip lp = L "loop_")
    (hH : ∀ l ∈ H, pyStrip l ≠ [] ∧ (pyStrip l).head? = some '_')
    (hHne : H ≠ [])
    (hm : pyStrip r0 ≠ L "data_particles" ∧ pyStrip r0 ≠ L "data_" ∧
      pyStrip r0 ≠ L "loop_")
    (hr0 : pyStrip r0 = [] ∨ (pyStrip r0).head? ≠ some '_') :
    scanLines (pre ++ b :: lp :: (H ++ r0 :: R')) 0 ⟨none, none, [], false⟩ =
      ⟨some (pre.length + 2 + H.length), some (pre.length + 2),
        H.map colNameOf, true⟩ := by
  rw [scanLines_append]
  simp only [Nat.zero_add]
  obtain ⟨d, hd⟩ := scanLines_seekLoop pre 0 ⟨none, none, [], false⟩ rfl rfl rfl hpre
  rw [hd, scanLines_cons_live rfl]
  have hstepb : scanStep pre.length b ⟨d, none, [], false⟩ =
      ⟨some pre.length, none, [], false⟩ := by
    simp only [scanStep]
    rw [if_pos hb]
  rw [hstepb, scanLines_cons_live rfl]
  have hsteplp : scanStep (pre.length + 1) lp ⟨some pre.length, none, [], false⟩ =
      ⟨some pre.length, some (pre.length + 1 + 1), [], false⟩ := by
    have h1 : ¬(pyStrip lp = L "data_particles" ∨ pyStrip lp = L "data_") := by
      rintro (h | h) <;> rw [hlp] at h <;> exact absurd h (by decide)
    have h2 : pyStrip lp = L "loop_" ∧ (some pre.length : Option Nat) ≠ none :=
      ⟨hlp, by simp⟩
    simp only [scanStep]
    rw [if_neg h1, if_pos h2]
  rw [hsteplp, scanLines_append]
  rw [scanLines_headers H _ _ (pre.length + 1 + 1) rfl rfl hH]
  rw [scanLines_cons_live rfl]
  rw [scanStep_break _ r0 _ (pre.length + 1 + 1) rfl (by simpa using hHne) hm hr0]
  rw [scanLines_broke rfl]
  rfl

/-- `read_star_file` on a well-formed file reduces to DataFrame
construction over the data region. -/
theorem read_star_structured (pre : List Line) (b lp : Line) (H : List Line)
    (r0 : Line) (R' : List Line) (col : List Char)
    (hpre : ∀ l ∈ pre, pyStrip l ≠ L "loop_")
    (hb : pyStrip b = L "data_particles" ∨ pyStrip b = L "data_")
    (hlp : pyStrip lp = L "loop_")
    (hH : ∀ l ∈ H, pyStrip l ≠ [] ∧ (pyStrip l).head? = some '_')
    (hHne : H ≠ [])
    (hm : pyStrip r0 ≠ L "data_particles" ∧ pyStrip r0 ≠ L "data_" ∧
      pyStrip r0 ≠ L "loop_")
    (hr0 : pyStrip r0 = [] ∨ (pyStrip r0).head? ≠ some '_') :
    read_star_file (pre ++ b :: lp :: (H ++ r0 :: R')) col =
      match mkDataFrame (((r0 :: R').filter keepRow).map (fun l => pySplit (pyStrip l)))
          (H.map colNameOf) with
      | .error e => .error e
      | .ok df => if col ∈ df.cols then .ok df else .error .formatErr := by
  have hdrop : (pre ++ b :: lp :: (H ++ r0 :: R')).drop (pre.length + 2 + H.length) =
      r0 :: R' := by
    have hassoc : pre ++ b :: lp :: (H ++ r0 :: R') =
        (pre ++ b :: lp :: H) ++ (r0 :: R') := by
      simp
    rw [hassoc]
    apply List.drop_left'
    simp [List.length_append]
    omega
  simp only [read_star_file]
  rw [scan_structured pre b lp H r0 R' hpre hb hlp hH hHne hm hr0]
  show (match
      mkDataFrame
        (List.map (fun l => pySplit (pyStrip l))
          (List.filter keepRow
            (List.drop (pre.length + 2 + H.length) (pre ++ b :: lp :: (H ++ r0 :: R')))))
        (List.map colNameOf H) with
    | Except.error e => Except.error e
    | Except.ok df => if col ∈ df.cols then Except.ok df else Except.error Err.formatErr) = _
  rw [hdrop]

/-- `read_star_structured`, success form. -/
theorem read_star_structured_ok (pre : List Line) (b lp : Line) (H : List Line)
    (r0 : Line) (R' : List Line) (col : List Char)
    (hpre : ∀ l ∈ pre, pyStrip l ≠ L "loop_")
    (hb : pyStrip b = L "data_particles" ∨ pyStrip b = L "data_")
    (hlp : pyStrip lp = L "loop_")
    (hH : ∀ l ∈ H, pyStrip l ≠ [] ∧ (pyStrip l).head? = some '_')
    (hHne : H ≠ [])
    (hm : pyStrip r0 ≠ L "data_particles" ∧ pyStrip r0 ≠ L "data_" ∧
      pyStrip r0 ≠ L "loop_")
    (hr0 : pyStrip r0 = [] ∨ (pyStrip r0).head? ≠ some '_')
    {df : Table}
    (hmk : mkDataFrame (((r0 :: R').filter keepRow).map (fun l => pySplit (pyStrip l)))
      (H.map colNameOf) = .ok df) :
    read_star_file (pre ++ b :: lp :: (H ++ r0 :: R')) col =
      if col ∈ df.cols then .ok df else .error .formatErr := by
  rw [read_star_structured pre b lp H r0 R' col hpre hb hlp hH hHne hm hr0, hmk]

/-- `read_star_structured`, failure form. -/
theorem read_star_structured_error (pre : List Line) (b lp : Line) (H : List Line)
    (r0 : Line) (R' : List Line) (col : List Char)
    (hpre : ∀ l ∈ pre, pyStrip l ≠ L "loop_")
    (hb : pyStrip b = L "data_particles" ∨ pyStrip b = L "data_")
    (hlp : pyStrip lp = L "loop_")
    (hH : ∀ l ∈ H, pyStrip l ≠ [] ∧ (pyStrip l).head? = some '_')
    (hHne : H ≠ [])
    (hm : pyStrip r0 ≠ L "data_particles" ∧ pyStrip r0 ≠ L "data_" ∧
      pyStrip r0 ≠ L "loop_")
    (hr0 : pyStrip r0 = [] ∨ (pyStrip r0).head? ≠ some '_')
    {e : Err}
    (hmk : mkDataFrame (((r0 :: R').filter keepRow).map (fun l => pySplit (pyStrip l)))
      (H.map colNameOf) = .error e) :
    read_star_file (pre ++ b :: lp :: (H ++ r0 :: R')) col = .error e := by
  rw [read_star_structured pre b lp H r0 R' col hpre hb hlp hH hHne hm hr0, hmk]

/-! ## Claims C5 and C6: the reference codec -/

/-- **C5, counterexample.**  The claim quantifies over *every* filename
string, but at `i = 0`, `name = ""` the encoded form `"000000@"` does not
decode: `(.+)` in the source regex requires a nonempty remainder, so
`decode(f"{0:06d}@{''}")` raises rather than returning `(0, "")`. -/
theorem c5_counterexample :
    encodeRef 0 (L "") = L "000000@" ∧
    parse_image_reference (L "000000@") = .error .formatErr := by
  exact ⟨rfl, rfl⟩

/-- **C5** (amended).  For every `i ≥ 0` and every *nonempty,
newline-free* filename `name`, `decode(f"{i:06d}@{name}") = (i, name)`;
re-encoding any successful decode of such a string reproduces it
exactly; and the zero-padding of `encode` is a minimum width (the full
digit string of `i` is always recovered, also for `i ≥ 1 000 000`). -/
theorem c5_codec_roundTrip (i : Nat) (name : List Char) (h1 : name ≠ [])
    (h2 : '\n' ∉ name) :
    parse_image_reference (encodeRef i name) = .ok (i, name) ∧
    (∀ j nm, parse_image_reference (encodeRef i name) = .ok (j, nm) →
      encodeRef j nm = encodeRef i name) ∧
    digitsVal (zfill6 i) = i ∧ 6 ≤ (zfill6 i).length := by
  refine ⟨parse_encodeRef i name h1 h2, ?_, digitsVal_zfill6 i, ?_⟩
  · intro j nm h
    rw [parse_encodeRef i name h1 h2] at h
    injection h with h
    injection h with hj hnm
    rw [hj, hnm]
  · unfold zfill6
    rw [List.length_append, List.length_replicate]
    omega

/-- Witness for `c5_codec_roundTrip` at `i = 3`, `name = "test.mrc"`. -/
theorem c5_codec_roundTrip_witness :
    parse_image_reference (encodeRef 3 (L "test.mrc")) = .ok (3, L "test.mrc") :=
  (c5_codec_roundTrip 3 (L "test.mrc") (by decide) (by decide)).1

/-- **C6, counterexample.**  `"0@"` starts with one-or-more digits
immediately followed by `@`, yet decoding fails (the regex `(.+)` needs
at least one character after the `@`), so the claim's "for every string
that does, decoding succeeds" is false. -/
theorem c6_counterexample :
    L "0@" = ['0'] ++ '@' :: [] ∧ ('0').isDigit = true ∧
    parse_image_reference (L "0@") = .error .formatErr := by
  exact ⟨rfl, rfl, rfl⟩

/-- **C6** (amended).  A string that does not start with one-or-more
digits immediately followed by `@` fails to decode with `FormatError`
(in particular `"invalid_reference"` does); a string that does, *and*
whose remainder after the `@` starts with a character other than a
newline, decodes successfully, the returned filename being the remainder
up to the first newline (so it may contain any characters, including `@`
and `.`). -/
theorem c6_decode_errors (s : List Char) :
    (¬ (∃ ds r, s = ds ++ '@' :: r ∧ ds ≠ [] ∧ ∀ c ∈ ds, c.isDigit = true) →
      parse_image_reference s = .error .formatErr) ∧
    (∀ ds r c, s = ds ++ '@' :: r → ds ≠ [] → (∀ x ∈ ds, x.isDigit = true) →
      r.head? = some c → c ≠ '\n' →
      parse_image_reference s = .ok (digitsVal ds, r.takeWhile (fun x => x ≠ '\n'))) ∧
    parse_image_reference (L "invalid_reference") = .error .formatErr := by
  refine ⟨?_, ?_, rfl⟩
  · intro hno
    unfold parse_image_reference
    cases hdw : s.dropWhile Char.isDigit with
    | nil => rfl
    | cons x rest =>
      by_cases hx : x = '@'
      · subst hx
        by_cases hds : s.takeWhile Char.isDigit = []
        · simp [hds]
        · exfalso
          apply hno
          refine ⟨s.takeWhile Char.isDigit, rest, ?_, hds, ?_⟩
          · rw [← hdw, List.takeWhile_append_dropWhile]
          · intro c hc
            exact List.mem_takeWhile_imp hc
      · simp only []
        split
        · rename_i heq
          injection heq with h1 h2
          exact absurd h1 hx
        · rfl
  · intro ds r c hs hne hdig hhead hc
    have hat : ('@').isDigit = false := by decide
    subst hs
    unfold parse_image_reference
    rw [takeWhile_all_append '@' r hdig hat, dropWhile_all_append '@' r hdig hat]
    cases r with
    | nil => simp at hhead
    | cons c' r' =>
      have hcc : c' = c := by
        simp only [List.head?_cons, Option.some.injEq] at hhead
        exact hhead
      subst hcc
      have htake : (c' :: r').takeWhile (fun x => x ≠ '\n') =
          c' :: r'.takeWhile (fun x => x ≠ '\n') := by
        rw [List.takeWhile_cons]
        simp [hc]
      simp only [hne, if_false, htake]
      simp

/-- Witness for `c6_decode_errors`: the success branch at `"12@im.mrc"`. -/
theorem c6_decode_errors_witness :
    parse_image_reference (L "12@im.mrc") = .ok (12, L "im.mrc") := by
  have h := (c6_decode_errors (L "12@im.mrc")).2.1 ['1', '2'] (L "im.mrc") 'i'
    (by decide) (by decide) (by decide) (by decide) (by decide)
  exact h

/-! ### Lemmas about the gatherer's phases -/

theorem exMapM_ok_length {f : α → Except Err β} :
    ∀ {l : List α} {ys : List β}, exMapM f l = .ok ys → ys.length = l.length := by
  intro l
  induction l with
  | nil =>
    intro ys h
    simp only [exMapM] at h
    injection h with h
    rw [← h]
    rfl
  | cons x xs ih =>
    intro ys h
    simp only [exMapM] at h
    cases hfx : f x with
    | error e => rw [hfx] at h; exact absurd h (by simp)
    | ok y =>
      rw [hfx] at h
      cases hrec : exMapM f xs with
      | error e => rw [hrec] at h; exact absurd h (by simp)
      | ok ys' =>
        rw [hrec] at h
        injection h with h
        rw [← h]
        simp [ih hrec]

theorem exMapM_ok_get {f : α → Except Err β} :
    ∀ {l : List α} {ys : List β}, exMapM f l = .ok ys →
      ∀ (k : Nat) (x : α), l[k]? = some x →
        ∃ y, ys[k]? = some y ∧ f x = .ok y := by
  intro l
  induction l with
  | nil =>
    intro ys _ k x hx
    simp at hx
  | cons a as ih =>
    intro ys h k x hx
    simp only [exMapM] at h
    cases hfa : f a with
    | error e => rw [hfa] at h; exact absurd h (by simp)
    | ok y =>
      rw [hfa] at h
      cases hrec : exMapM f as with
      | error e => rw [hrec] at h; exact absurd h (by simp)
      | ok ys' =>
        rw [hrec] at h
        injection h with h
        subst h
        cases k with
        | zero =>
          simp only [List.getElem?_cons_zero, Option.some.injEq] at hx
          subst hx
          exact ⟨y, by simp, hfa⟩
        | succ k =>
          simp only [List.getElem?_cons_succ] at hx
          obtain ⟨y', hy', hfy'⟩ := ih hrec k x hx
          exact ⟨y', by simpa using hy', hfy'⟩

theorem exMapM_ok_of_mem {f : α → Except Err β} {l : List α} {ys : List β}
    (h : exMapM f l = .ok ys) {x : α} (hx : x ∈ l) : ∃ y, f x = .ok y := by
  induction l generalizing ys with
  | nil => simp at hx
  | cons a as ih =>
    simp only [exMapM] at h
    cases hfa : f a with
    | error e => rw [hfa] at h; exact absurd h (by simp)
    | ok y =>
      rw [hfa] at h
      cases hrec : exMapM f as with
      | error e => rw [hrec] at h; exact absurd h (by simp)
      | ok ys' =>
        rcases List.mem_cons.1 hx with rfl | hx'
        · exact ⟨y, hfa⟩
        · exact ih hrec hx'

theorem exMapM_error_of_mem {f : α → Except Err β} {l : List α} {x : α}
    (hx : x ∈ l) {e : Err} (hfx : f x = .error e) :
    ∃ e', exMapM f l = .error e' := by
  induction l with
  | nil => simp at hx
  | cons a as ih =>
    cases hfa : f a with
    | error e'' => exact ⟨e'', by simp [exMapM, hfa]⟩
    | ok y =>
      rcases List.mem_cons.1 hx with rfl | hx'
      · rw [hfa] at hfx; exact absurd hfx (by simp)
      · obtain ⟨e', he'⟩ := ih hx'
        exact ⟨e', by simp [exMapM, hfa, he']⟩

/-- A `sorted(enumerate(xs), key=lambda x: x[0])` is the identity: the
keys are already strictly increasing. -/
theorem sortByKey_enumFrom : ∀ (xs : List α) (n : Nat),
    sortByKey (List.enumFrom n xs) = List.enumFrom n xs := by
  intro xs
  induction xs with
  | nil => intro n; rfl
  | cons x xs ih =>
    intro n
    show insertByKey (n, x) (sortByKey (List.enumFrom (n + 1) xs)) = _
    rw [ih (n + 1)]
    cases xs with
    | nil => rfl
    | cons y ys =>
      show insertByKey (n, x) ((n + 1, y) :: List.enumFrom (n + 2) ys) = _
      rw [insertByKey, if_pos (by omega)]
      rfl

theorem sortByKey_enum (xs : List α) : sortByKey xs.enum = xs.enum :=
  sortByKey_enumFrom xs 0

theorem npStack_ok {imgs ys : List Image} (h : npStack imgs = .ok ys) : ys = imgs := by
  cases imgs with
  | nil => simp [npStack] at h
  | cons i0 rest =>
    simp only [npStack] at h
    by_cases hall : rest.all (fun i => i.h == i0.h && i.w == i0.w)
    · rw [if_pos hall] at h
      injection h with h
      rw [h]
    · rw [if_neg hall] at h
      exact absurd h (by simp)

/-- `process_images` after a successful reference parse. -/
theorem process_images_eq_of_parse {t : Table} {col dir out : List Char} {fs : FS}
    {refs : List (Nat × List Char)} (hp : parsePhase t col = .ok refs) :
    process_images t col dir out fs =
      match exMapM (fun p => resolveImage fs dir p.2) (sortByKey refs.enum) with
      | .error e => (t, .error e)
      | .ok images =>
        match npStack images with
        | .error e => (t, .error e)
        | .ok planes =>
          (rewriteRefs t col (basename out), .ok ⟨planes, .float32⟩) := by
  unfold process_images
  rw [hp]

/-- Shape of a successful `process_images` run. -/
theorem process_images_ok {t : Table} {col dir out : List Char} {fs : FS}
    {t' : Table} {st : MrcStack}
    (h : process_images t col dir out fs = (t', .ok st)) :
    ∃ refs imgs, parsePhase t col = .ok refs ∧
      exMapM (fun p => resolveImage fs dir p.2) refs.enum = .ok imgs ∧
      st = ⟨imgs, .float32⟩ ∧ t' = rewriteRefs t col (basename out) := by
  cases hp : parsePhase t col with
  | error e =>
    unfold process_images at h
    rw [hp] at h
    have h' : (t, (Except.error e : Except Err MrcStack)) = (t', .ok st) := h
    injection h' with _ h2
    exact absurd h2 (by simp)
  | ok refs =>
    rw [process_images_eq_of_parse hp, sortByKey_enum] at h
    cases hl : exMapM (fun p => resolveImage fs dir p.2) refs.enum with
    | error e =>
      rw [hl] at h
      have h' : (t, (Except.error e : Except Err MrcStack)) = (t', .ok st) := h
      injection h' with _ h2
      exact absurd h2 (by simp)
    | ok imgs =>
      rw [hl] at h
      have hm : (match npStack imgs with
          | Except.error e => (t, (Except.error e : Except Err MrcStack))
          | Except.ok planes =>
            (rewriteRefs t col (basename out),
              Except.ok ⟨planes, Dtype.float32⟩)) = (t', .ok st) := h
      cases hnp : npStack imgs with
      | error e =>
        rw [hnp] at hm
        have h' : (t, (Except.error e : Except Err MrcStack)) = (t', .ok st) := hm
        injection h' with _ h2
        exact absurd h2 (by simp)
      | ok planes =>
        rw [hnp] at hm
        have hpl : planes = imgs := npStack_ok hnp
        subst hpl
        have h' : (rewriteRefs t col (basename out),
            (Except.ok ⟨planes, Dtype.float32⟩ : Except Err MrcStack)) = (t', .ok st) := hm
        injection h' with h1 h2
        injection h2 with h2
        exact ⟨refs, planes, rfl, hl, h2.symm, h1.symm⟩

theorem parsePhase_ok {t : Table} {col : List Char}
    {refs : List (Nat × List Char)} (h : parsePhase t col = .ok refs) :
    ∃ j, firstIdx t.cols col = some j ∧
      exMapM parseRefVal (t.rows.map (fun r => r[j]?.getD Val.none_)) = .ok refs ∧
      refs.length = t.rows.length := by
  unfold parsePhase at h
  cases hj : firstIdx t.cols col with
  | none => rw [hj] at h; exact absurd h (by simp)
  | some j =>
    rw [hj] at h
    refine ⟨j, rfl, h, ?_⟩
    have := exMapM_ok_length h
    simpa using this

/-- On a successful parse, every row holds a string cell at the
reference column. -/
theorem parsePhase_cell {t : Table} {j : Nat}
    {refs : List (Nat × List Char)}
    (h : exMapM parseRefVal (t.rows.map (fun r => r[j]?.getD Val.none_)) = .ok refs) :
    ∀ row ∈ t.rows, ∃ s, row[j]? = some (Val.str s) := by
  intro row hrow
  have hmem : (row[j]?.getD Val.none_) ∈
      t.rows.map (fun r => r[j]?.getD Val.none_) :=
    List.mem_map_of_mem _ hrow
  obtain ⟨y, hy⟩ := exMapM_ok_of_mem h hmem
  cases hcell : row[j]? with
  | none => rw [hcell] at hy; simp [parseRefVal] at hy
  | some v =>
    cases v with
    | none_ => rw [hcell] at hy; simp [parseRefVal] at hy
    | str s => exact ⟨s, rfl⟩

theorem rewriteRefs_cols (t : Table) (col nm : List Char) :
    (rewriteRefs t col nm).cols = t.cols := by
  unfold rewriteRefs
  cases firstIdx t.cols col <;> rfl

theorem rewriteRefs_rows_length (t : Table) (col nm : List Char) :
    (rewriteRefs t col nm).rows.length = t.rows.length := by
  unfold rewriteRefs
  cases firstIdx t.cols col with
  | none => rfl
  | some j => simp [List.enum_length]

theorem rewriteRefs_row {t : Table} {col : List Char} {j : Nat}
    (hj : firstIdx t.cols col = some j) (nm : List Char) (k : Nat)
    {row : List Val} (hrow : t.rows[k]? = some row) :
    (rewriteRefs t col nm).rows[k]? =
      some (row.set j (.str (encodeRef k nm))) := by
  unfold rewriteRefs
  rw [hj]
  simp [List.getElem?_map, List.getElem?_enum, hrow]

theorem rewriteRefs_row_none {t : Table} {col : List Char} {j : Nat}
    (hj : firstIdx t.cols col = some j) (nm : List Char) (k : Nat)
    (hrow : t.rows[k]? = none) :
    (rewriteRefs t col nm).rows[k]? = none := by
  unfold rewriteRefs
  rw [hj]
  simp [List.getElem?_map, List.getElem?_enum, hrow]

/-! ## Claims C1, C2, C7, C9, C10: the image gatherer -/

/-- **C1.**  After a successful `process_images` run, the
reference-column cell of the row at 0-based position `k` is exactly
`f"{k:06d}@{basename(destination_path)}"`, for every `k` below the row
count, regardless of the indices and filenames originally referenced. -/
theorem c1_reindexing (t : Table) (col dir out : List Char) (fs : FS)
    (t' : Table) (st : MrcStack)
    (hsucc : process_images t col dir out fs = (t', .ok st))
    (k : Nat) (hk : k < t'.rows.length) :
    ∃ j, firstIdx t.cols col = some j ∧
      cellAt t' k j = some (.str (encodeRef k (basename out))) := by
  obtain ⟨refs, imgs, hp, hl, hst, ht'⟩ := process_images_ok hsucc
  obtain ⟨j, hj, hex, hlen⟩ := parsePhase_ok hp
  refine ⟨j, hj, ?_⟩
  subst ht'
  rw [rewriteRefs_rows_length] at hk
  obtain ⟨row, hrow⟩ : ∃ row, t.rows[k]? = some row :=
    ⟨t.rows[k], List.getElem?_eq_getElem hk⟩
  have hrmem : row ∈ t.rows := by
    obtain ⟨h1, h2⟩ := List.getElem?_eq_some.1 hrow
    rw [← h2]
    exact List.getElem_mem h1
  obtain ⟨s, hcell⟩ := parsePhase_cell hex row hrmem
  have hjlt : j < row.length := by
    obtain ⟨h1, _⟩ := List.getElem?_eq_some.1 hcell
    exact h1
  unfold cellAt
  rw [rewriteRefs_row hj (basename out) k hrow]
  show (row.set j (.str (encodeRef k (basename out))))[j]? = _
  exact List.getElem?_set_eq_of_lt _ (by simpa using hjlt)

/-- Witness for `c1_reindexing`: a two-row table gathered from one
single-image file and one stack file; row 1 is rewritten to
`000001@out.mrcs`. -/
theorem c1_reindexing_witness :
    ∃ j, firstIdx [L "rlnImageName"] (L "rlnImageName") = some j ∧
      cellAt ⟨[L "rlnImageName"],
          [[.str (L "000000@out.mrcs")], [.str (L "000001@out.mrcs")]]⟩ 1 j =
        some (.str (encodeRef 1 (basename (L "stacks/out.mrcs")))) :=
  c1_reindexing
    ⟨[L "rlnImageName"], [[.str (L "000000@a.mrc")], [.str (L "000001@b.mrc")]]⟩
    (L "rlnImageName") (L "in") (L "stacks/out.mrcs")
    (fun p => if p = L "in/a.mrc" then some (.single ⟨2, 2, [0, 1, 2, 3]⟩)
      else if p = L "in/b.mrc" then
        some (.stack [⟨2, 2, [4, 5, 6, 7]⟩, ⟨2, 2, [8, 9, 10, 11]⟩])
      else none)
    ⟨[L "rlnImageName"], [[.str (L "000000@out.mrcs")], [.str (L "000001@out.mrcs")]]⟩
    ⟨[⟨2, 2, [0, 1, 2, 3]⟩, ⟨2, 2, [8, 9, 10, 11]⟩], .float32⟩
    rfl 1 (by decide)

/-- **C2, counterexample.**  An empty table's references all resolve
(vacuously: the resolution pass returns an empty image list), yet
`np.stack([])` raises, so no stack of shape `(0, H, W)` is ever written —
`process_images` fails instead of producing the claimed stack. -/
theorem c2_counterexample :
    parsePhase ⟨[L "rlnImageName"], []⟩ (L "rlnImageName") = .ok [] ∧
    exMapM (fun p => resolveImage (fun _ => none) (L "in") p.2)
      (([] : List (Nat × List Char)).enum) = .ok [] ∧
    (process_images ⟨[L "rlnImageName"], []⟩ (L "rlnImageName") (L "in")
      (L "out.mrc") (fun _ => none)).2 = .error .formatErr :=
  ⟨rfl, rfl, rfl⟩

/-- **C2** (amended).  For every *nonempty* table whose references all
resolve to images of one common shape `(H, W)`, `process_images` writes
a stack in 32-bit floating point whose plane count equals the row count
and whose plane at position `k` is the image resolved for the row at
table position `k` — planes follow table row order, not any reordering
of the decoded indices. -/
theorem c2_stack_order (t : Table) (col dir out : List Char) (fs : FS)
    (refs : List (Nat × List Char)) (imgs : List Image) (i0 : Image)
    (rest : List Image)
    (hp : parsePhase t col = .ok refs)
    (hl : exMapM (fun p => resolveImage fs dir p.2) refs.enum = .ok imgs)
    (him : imgs = i0 :: rest)
    (hsh : ∀ i ∈ imgs, i.h = i0.h ∧ i.w = i0.w) :
    (process_images t col dir out fs).2 = .ok ⟨imgs, .float32⟩ ∧
    imgs.length = t.rows.length ∧
    (∀ k, k < t.rows.length → ∃ r img, refs[k]? = some r ∧ imgs[k]? = some img ∧
      resolveImage fs dir r = .ok img) := by
  obtain ⟨j, hj, hex, hlen⟩ := parsePhase_ok hp
  have hall : rest.all (fun i => i.h == i0.h && i.w == i0.w) = true := by
    rw [List.all_eq_true]
    intro x hx
    have hx2 := hsh x (by rw [him]; exact List.mem_cons_of_mem i0 hx)
    simp [hx2.1, hx2.2]
  have hnp : npStack imgs = .ok imgs := by
    rw [him]
    simp only [npStack]
    rw [if_pos hall]
  have hproc : (process_images t col dir out fs).2 = .ok ⟨imgs, .float32⟩ := by
    rw [process_images_eq_of_parse hp, sortByKey_enum, hl]
    show (match npStack imgs with
      | Except.error e => (t, (Except.error e : Except Err MrcStack))
      | Except.ok planes =>
        (rewriteRefs t col (basename out),
          Except.ok ⟨planes, Dtype.float32⟩)).2 = _
    rw [hnp]
  have hlen2 : imgs.length = t.rows.length := by
    have h1 := exMapM_ok_length hl
    rw [List.enum_length] at h1
    rw [h1, hlen]
  refine ⟨hproc, hlen2, ?_⟩
  intro k hk
  have hkr : k < refs.length := by rw [hlen]; exact hk
  obtain ⟨r, hr⟩ : ∃ r, refs[k]? = some r :=
    ⟨refs[k], List.getElem?_eq_getElem hkr⟩
  have hEk : refs.enum[k]? = some (k, r) := by
    rw [List.getElem?_enum, hr]
    rfl
  obtain ⟨img, himg, hres⟩ := exMapM_ok_get hl k (k, r) hEk
  exact ⟨r, img, hr, himg, hres⟩

/-- Witness for `c2_stack_order`: the two-image gather produces the
stack `[imgA, imgB1]` in row order as float32. -/
theorem c2_stack_order_witness :
    (process_images
      ⟨[L "rlnImageName"], [[.str (L "000000@a.mrc")], [.str (L "000001@b.mrc")]]⟩
      (L "rlnImageName") (L "in") (L "stacks/out.mrcs")
      (fun p => if p = L "in/a.mrc" then some (.single ⟨2, 2, [0, 1, 2, 3]⟩)
        else if p = L "in/b.mrc" then
          some (.stack [⟨2, 2, [4, 5, 6, 7]⟩, ⟨2, 2, [8, 9, 10, 11]⟩])
        else none)).2 =
      .ok ⟨[⟨2, 2, [0, 1, 2, 3]⟩, ⟨2, 2, [8, 9, 10, 11]⟩], .float32⟩ :=
  (c2_stack_order
    ⟨[L "rlnImageName"], [[.str (L "000000@a.mrc")], [.str (L "000001@b.mrc")]]⟩
    (L "rlnImageName") (L "in") (L "stacks/out.mrcs")
    (fun p => if p = L "in/a.mrc" then some (.single ⟨2, 2, [0, 1, 2, 3]⟩)
      else if p = L "in/b.mrc" then
        some (.stack [⟨2, 2, [4, 5, 6, 7]⟩, ⟨2, 2, [8, 9, 10, 11]⟩])
      else none)
    [(0, L "a.mrc"), (1, L "b.mrc")]
    [⟨2, 2, [0, 1, 2, 3]⟩, ⟨2, 2, [8, 9, 10, 11]⟩]
    ⟨2, 2, [0, 1, 2, 3]⟩ [⟨2, 2, [8, 9, 10, 11]⟩]
    rfl rfl rfl (by decide)).1

/-- **C7.**  During gathering: an index at or beyond a stack's first
dimension, or a nonzero index into a single-image file, fails with
`RangeError`; a filename with no file at `input_dir/filename` fails with
`NotFoundError`; and any row whose resolution fails makes the whole run
fail — no row is skipped. -/
theorem c7_resolution_failures (fs : FS) (inputDir outPath : List Char) :
    (∀ imgs (idx : Nat) name, fs (joinPath inputDir name) = some (.stack imgs) →
      imgs.length ≤ idx →
      resolveImage fs inputDir (idx, name) = .error .rangeErr) ∧
    (∀ img (idx : Nat) name, fs (joinPath inputDir name) = some (.single img) →
      idx ≠ 0 → resolveImage fs inputDir (idx, name) = .error .rangeErr) ∧
    (∀ (idx : Nat) name, fs (joinPath inputDir name) = none →
      resolveImage fs inputDir (idx, name) = .error .notFoundErr) ∧
    (∀ (t : Table) (col : List Char) refs (k : Nat) r (e : Err),
      parsePhase t col = .ok refs → refs[k]? = some r →
      resolveImage fs inputDir r = .error e →
      ∃ e', (process_images t col inputDir outPath fs).2 = .error e') := by
  refine ⟨?_, ?_, ?_, ?_⟩
  · intro imgs idx name hfs hle
    show (match fs (joinPath inputDir name) with
      | none => (Except.error Err.notFoundErr : Except Err Image)
      | some (.stack imgs2) =>
        if h : idx < imgs2.length then .ok imgs2[idx] else .error .rangeErr
      | some (.single img) =>
        if idx = 0 then .ok img else .error .rangeErr) = .error .rangeErr
    rw [hfs]
    show (if h : idx < imgs.length then Except.ok imgs[idx]
      else Except.error Err.rangeErr) = Except.error Err.rangeErr
    rw [dif_neg (by omega)]
  · intro img idx name hfs hne
    show (match fs (joinPath inputDir name) with
      | none => (Except.error Err.notFoundErr : Except Err Image)
      | some (.stack imgs2) =>
        if h : idx < imgs2.length then .ok imgs2[idx] else .error .rangeErr
      | some (.single img) =>
        if idx = 0 then .ok img else .error .rangeErr) = .error .rangeErr
    rw [hfs]
    show (if idx = 0 then Except.ok img else Except.error Err.rangeErr) =
      Except.error Err.rangeErr
    rw [if_neg hne]
  · intro idx name hfs
    show (match fs (joinPath inputDir name) with
      | none => (Except.error Err.notFoundErr : Except Err Image)
      | some (.stack imgs2) =>
        if h : idx < imgs2.length then .ok imgs2[idx] else .error .rangeErr
      | some (.single img) =>
        if idx = 0 then .ok img else .error .rangeErr) = .error .notFoundErr
    rw [hfs]
  · intro t col refs k r e hp hget hres
    have hmem : (k, r) ∈ refs.enum := by
      have hE : refs.enum[k]? = some (k, r) := by
        rw [List.getElem?_enum, hget]
        rfl
      obtain ⟨hlt, heq⟩ := List.getElem?_eq_some.1 hE
      exact heq ▸ List.getElem_mem hlt
    have hmem' : (k, r) ∈ sortByKey refs.enum := by
      rw [sortByKey_enum]
      exact hmem
    have hres' : (fun p : Nat × (Nat × List Char) =>
        resolveImage fs inputDir p.2) (k, r) = .error e := hres
    obtain ⟨e', he'⟩ := @exMapM_error_of_mem (Nat × (Nat × List Char)) Image
      (fun p => resolveImage fs inputDir p.2) (sortByKey refs.enum) (k, r)
      hmem' e hres'
    refine ⟨e', ?_⟩
    rw [process_images_eq_of_parse hp, he']

/-- Witness for `c7_resolution_failures`: a reference to a missing file
aborts the whole run. -/
theorem c7_resolution_failures_witness :
    ∃ e', (process_images ⟨[L "rlnImageName"], [[.str (L "000000@missing.mrc")]]⟩
      (L "rlnImageName") (L "in") (L "out.mrc") (fun _ => none)).2 = .error e' :=
  (c7_resolution_failures (fun _ => none) (L "in") (L "out.mrc")).2.2.2
    ⟨[L "rlnImageName"], [[.str (L "000000@missing.mrc")]]⟩ (L "rlnImageName")
    [(0, L "missing.mrc")] 0 (0, L "missing.mrc") Err.notFoundErr rfl rfl rfl

/-- **C9.**  A successful `process_images` changes only the reference
column: the column list is unchanged, the row count is unchanged, and
every cell at a column position other than the reference column's is
unchanged. -/
theorem c9_frame_effect (t : Table) (col dir out : List Char) (fs : FS)
    (t' : Table) (st : MrcStack)
    (hsucc : process_images t col dir out fs = (t', .ok st)) :
    t'.cols = t.cols ∧ t'.rows.length = t.rows.length ∧
    ∃ jr, firstIdx t.cols col = some jr ∧
      ∀ (k j : Nat), j ≠ jr → cellAt t' k j = cellAt t k j := by
  obtain ⟨refs, imgs, hp, hl, hst, ht'⟩ := process_images_ok hsucc
  obtain ⟨jr, hj, hex, hlen⟩ := parsePhase_ok hp
  subst ht'
  refine ⟨rewriteRefs_cols t col (basename out),
    rewriteRefs_rows_length t col (basename out), jr, hj, ?_⟩
  intro k j hne
  unfold cellAt
  cases hrow : t.rows[k]? with
  | none => rw [rewriteRefs_row_none hj (basename out) k hrow]
  | some row =>
    rw [rewriteRefs_row hj (basename out) k hrow]
    show (row.set jr (.str (encodeRef k (basename out))))[j]? = row[j]?
    exact List.getElem?_set_ne (Ne.symm hne)

/-- Witness for `c9_frame_effect`: a gather with an extra
`rlnDefocusU` column leaves that column's value untouched. -/
theorem c9_frame_effect_witness :
    (⟨[L "rlnImageName", L "rlnDefocusU"],
        [[.str (L "000000@out.mrcs"), .str (L "1.5")]]⟩ : Table).cols =
      (⟨[L "rlnImageName", L "rlnDefocusU"],
        [[.str (L "000000@a.mrc"), .str (L "1.5")]]⟩ : Table).cols ∧
    (⟨[L "rlnImageName", L "rlnDefocusU"],
        [[.str (L "000000@out.mrcs"), .str (L "1.5")]]⟩ : Table).rows.length =
      (⟨[L "rlnImageName", L "rlnDefocusU"],
        [[.str (L "000000@a.mrc"), .str (L "1.5")]]⟩ : Table).rows.length ∧
    ∃ jr, firstIdx [L "rlnImageName", L "rlnDefocusU"] (L "rlnImageName") = some jr ∧
      ∀ (k j : Nat), j ≠ jr →
        cellAt ⟨[L "rlnImageName", L "rlnDefocusU"],
          [[.str (L "000000@out.mrcs"), .str (L "1.5")]]⟩ k j =
        cellAt ⟨[L "rlnImageName", L "rlnDefocusU"],
          [[.str (L "000000@a.mrc"), .str (L "1.5")]]⟩ k j :=
  c9_frame_effect
    ⟨[L "rlnImageName", L "rlnDefocusU"], [[.str (L "000000@a.mrc"), .str (L "1.5")]]⟩
    (L "rlnImageName") (L "in") (L "out.mrcs")
    (fun p => if p = L "in/a.mrc" then some (.single ⟨2, 2, [0, 1, 2, 3]⟩) else none)
    ⟨[L "rlnImageName", L "rlnDefocusU"], [[.str (L "000000@out.mrcs"), .str (L "1.5")]]⟩
    ⟨[⟨2, 2, [0, 1, 2, 3]⟩], .float32⟩ rfl

/-- **C10.**  If `process_images` fails, the table is left exactly as it
was passed in: the reference column is rewritten only after every row's
image has been loaded and the stack has been assembled, so no
partially-reindexed table is observable after a failure. -/
theorem c10_failure_preserves_table (t : Table) (col dir out : List Char)
    (fs : FS) (e : Err)
    (hfail : (process_images t col dir out fs).2 = .error e) :
    (process_images t col dir out fs).1 = t := by
  cases hp : parsePhase t col with
  | error e1 =>
    unfold process_images
    rw [hp]
  | ok refs =>
    rw [process_images_eq_of_parse hp] at hfail ⊢
    cases hl : exMapM (fun p => resolveImage fs dir p.2) (sortByKey refs.enum) with
    | error e2 => rfl
    | ok imgs =>
      rw [hl] at hfail
      have hm : (match npStack imgs with
          | Except.error e => (t, (Except.error e : Except Err MrcStack))
          | Except.ok planes =>
            (rewriteRefs t col (basename out),
              Except.ok ⟨planes, Dtype.float32⟩)).2 = .error e := hfail
      show (match npStack imgs with
          | Except.error e => (t, (Except.error e : Except Err MrcStack))
          | Except.ok planes =>
            (rewriteRefs t col (basename out),
              Except.ok ⟨planes, Dtype.float32⟩)).1 = t
      cases hnp : npStack imgs with
      | error e3 => rfl
      | ok planes =>
        rw [hnp] at hm
        have hcon : (Except.ok (⟨planes, Dtype.float32⟩ : MrcStack) :
            Except Err MrcStack) = .error e := hm
        exact absurd hcon (by simp)

/-- Witness for `c10_failure_preserves_table`: a run that fails on a
missing file leaves the table untouched. -/
theorem c10_failure_preserves_table_witness :
    (process_images ⟨[L "rlnImageName"], [[.str (L "000000@missing.mrc")]]⟩
      (L "rlnImageName") (L "in") (L "out.mrc") (fun _ => none)).1 =
      ⟨[L "rlnImageName"], [[.str (L "000000@missing.mrc")]]⟩ :=
  c10_failure_preserves_table
    ⟨[L "rlnImageName"], [[.str (L "000000@missing.mrc")]]⟩
    (L "rlnImageName") (L "in") (L "out.mrc") (fun _ => none) .notFoundErr rfl

/-! ## Claim C8: malformed data rows -/

/-- Unfolding of `mkDataFrame` on a nonempty row list. -/
theorem mkDataFrame_cons (row0 : List (List Char)) (rs : List (List (List Char)))
    (cols : List (List Char)) :
    mkDataFrame (row0 :: rs) cols =
      (if ((row0 :: rs).map List.length).foldl max 0 = cols.length then
        .ok ⟨cols, (row0 :: rs).map (fun r => r.map Val.str ++
          List.replicate ((((row0 :: rs).map List.length).foldl max 0) - r.length)
            Val.none_)⟩
      else .error .formatErr) := by
  simp only [mkDataFrame]

/-- **C8, counterexample.**  A data row with *fewer* tokens than the
declared column count does not make `read_star_file` fail: when the
widest row matches the column count, the short row is silently padded
with a null cell (pandas' list-of-lists constructor). -/
theorem c8_counterexample :
    read_star_file [L "data_", L "loop_", L "_a", L "_b", L "x y", L "z"] (L "a") =
      .ok ⟨[L "a", L "b"],
        [[.str (L "x"), .str (L "y")], [.str (L "z"), .none_]]⟩ := rfl

/-- **C8** (amended).  `read_star_file` fails with `FormatError` exactly
when the *maximum* token count over the data rows differs from the
declared column count — so a row with too many tokens is always fatal —
but a row with fewer tokens than the column count is silently padded
with null cells whenever the maximum token count equals the column
count. -/
theorem c8_row_width (pre : List Line) (b lp : Line) (H : List Line) (r0 : Line)
    (R' : List Line) (col : List Char)
    (hpre : ∀ l ∈ pre, pyStrip l ≠ L "loop_")
    (hb : pyStrip b = L "data_particles" ∨ pyStrip b = L "data_")
    (hlp : pyStrip lp = L "loop_")
    (hH : ∀ l ∈ H, pyStrip l ≠ [] ∧ (pyStrip l).head? = some '_')
    (hHne : H ≠ [])
    (hm : pyStrip r0 ≠ L "data_particles" ∧ pyStrip r0 ≠ L "data_" ∧
      pyStrip r0 ≠ L "loop_")
    (hr0h : (pyStrip r0).head? ≠ some '_')
    (hRkeep : ∀ l ∈ r0 :: R', keepRow l = true) :
    (((r0 :: R').map (fun l => (pySplit l).length)).foldl max 0 ≠ H.length →
      read_star_file (pre ++ b :: lp :: (H ++ r0 :: R')) col = .error .formatErr) ∧
    (((r0 :: R').map (fun l => (pySplit l).length)).foldl max 0 = H.length →
      col ∈ H.map colNameOf →
      read_star_file (pre ++ b :: lp :: (H ++ r0 :: R')) col =
        .ok ⟨H.map colNameOf, (r0 :: R').map (fun l =>
          (pySplit l).map Val.str ++
            List.replicate (H.length - (pySplit l).length) Val.none_)⟩) := by
  have hfilter : (r0 :: R').filter keepRow = r0 :: R' :=
    List.filter_eq_self.2 hRkeep
  have hdata : ((r0 :: R').filter keepRow).map (fun l => pySplit (pyStrip l)) =
      (r0 :: R').map (fun l => pySplit l) := by
    rw [hfilter]
    exact List.map_congr_left (fun x _ => pySplit_pyStrip x)
  have hwidths : ((r0 :: R').map (fun l => pySplit l)).map List.length =
      (r0 :: R').map (fun l => (pySplit l).length) := by
    rw [List.map_map]
    rfl
  have hcl : (H.map colNameOf).length = H.length := by simp
  constructor
  · intro hne
    apply read_star_structured_error pre b lp H r0 R' col hpre hb hlp hH hHne hm
      (Or.inr hr0h)
    rw [hdata]
    cases hmc : (r0 :: R').map (fun l => pySplit l) with
    | nil => simp at hmc
    | cons d ds =>
      rw [mkDataFrame_cons]
      rw [if_neg ?_]
      rw [← hmc, hwidths, hcl]
      exact hne
  · intro hw hcol
    have hmk : mkDataFrame
        (((r0 :: R').filter keepRow).map (fun l => pySplit (pyStrip l)))
        (H.map colNameOf) =
        .ok ⟨H.map colNameOf, (r0 :: R').map (fun l =>
          (pySplit l).map Val.str ++
            List.replicate (H.length - (pySplit l).length) Val.none_)⟩ := by
      rw [hdata]
      cases hmc : (r0 :: R').map (fun l => pySplit l) with
      | nil => simp at hmc
      | cons d ds =>
        rw [mkDataFrame_cons]
        rw [if_pos ?_]
        · refine congrArg Except.ok (congrArg (Table.mk (H.map colNameOf)) ?_)
          rw [← hmc]
          have hW : (((r0 :: R').map (fun l => pySplit l)).map List.length).foldl
              max 0 = H.length := by
            rw [hwidths]
            exact hw
          rw [hW, List.map_map]
          apply List.map_congr_left
          intro x hx
          rfl
        · rw [← hmc, hwidths, hcl]
          exact hw
    rw [read_star_structured_ok pre b lp H r0 R' col hpre hb hlp hH hHne hm
      (Or.inr hr0h) hmk]
    rw [if_pos hcol]

/-- Witness for `c8_row_width`: one declared column against a two-token
row is fatal. -/
theorem c8_row_width_witness :
    read_star_file ([] ++ (L "data_") :: (L "loop_") ::
        ([L "_a"] ++ (L "x y") :: [])) (L "a") = .error .formatErr :=
  (c8_row_width [] (L "data_") (L "loop_") [L "_a"] (L "x y") [] (L "a")
    (by simp) (Or.inr rfl) rfl (by decide) (by decide) (by decide) (by decide)
    (by decide)).1 (by decide)

/-! ## Claims C3 and C4: the table writer never runs

`save_star_file`'s own docstring promises to save the table "preserving
the original format", and the repository's test module imports this
file; both are defeated by the dedented check at source line 128: the
module is rejected by Python's tokenizer at line 132, before any
statement executes.  So the writer never writes an output (C4's
"for every output it writes" has no instances), and no written file ever
exists for `read_star_file` to parse back (C3's round trip never
happens). -/

/-- **C3, code bug.**  The reader half of the round trip works — the
spec's example file parses to its two rows — but the writer half cannot
run: Python's indentation check rejects `combine_mrc_stacks.py`
(`moduleIndents` is the module's actual indentation profile), so
`save_star_file` never produces a file for `read_star_file` to
re-read, and the claimed round trip is unrealisable on the code as
committed. -/
theorem c3_writer_side_never_runs :
    read_star_file [L "data_particles", L "loop_", L "_rlnImageName",
      L "000001@test1.mrc", L "000002@test2.mrc"] (L "rlnImageName") =
      .ok ⟨[L "rlnImageName"],
        [[.str (L "000001@test1.mrc")], [.str (L "000002@test2.mrc")]]⟩ ∧
    pyIndentsOk [0] moduleIndents = false := by
  exact ⟨rfl, by decide⟩

/-- **C4, code bug.**  The writer reproduces nothing: every logical line
of the module up to and including the dedented `if data_start is None:`
and its `raise` (positions 0–79, through source line 129) passes the
indentation check, but the full module does not — the next line of
`save_star_file`'s body (source line 132, indent 4) matches no open
indentation level, so the module raises `IndentationError` at import
and `save_star_file` never writes any output, byte-for-byte or
otherwise. -/
theorem c4_writer_never_runs :
    pyIndentsOk [0] (moduleIndents.take 80) = true ∧
    pyIndentsOk [0] moduleIndents = false := by
  exact ⟨by decide, by decide⟩

end MrcsMaker
